import Mathlib

/-!
Shallow embedding of the Healthcare-Service-dashboard aggregation pipeline
(`src/app.py`) and proofs about its normalization and derived views.

The pipeline cleans a raw review table (drop rows whose `Company Name` or
`Standardized Category` cell is missing, coerce `Review Count` to an integer,
rewrite company-type and category synonyms through two replacement tables) and
derives grouped summary tables (`company_counts`, `reviews_per_type`), a
per-category company-type distribution (`update_category_pie`) and a
per-category company directory (`update_company_breakdown`).

Pandas conventions captured here:
  * `dropna(subset=[...])` removes rows whose cell is NaN (modelled by
    `Option.none`); empty strings are not NaN and are kept.
  * `pd.to_numeric(errors=coerce).fillna(0).astype(int)` sends numeric
    values through unchanged and everything else to 0.
  * `Series.replace(dict)` rewrites exactly the values that are keys of the
    dict and leaves every other value unchanged.
  * `groupby(keys)` (default `sort=True`) produces one group per distinct
    key value, with groups ordered by ascending key and the rows inside a
    group kept in their original order.
  * `drop_duplicates()` keeps the first occurrence of each duplicated row.
-/

/-- A raw `Review Count` cell: a numeric value, non-numeric text, or missing. -/
inductive RawCount where
  | num (n : Int)
  | text (s : String)
  | missing
deriving DecidableEq

/-- One row of the raw spreadsheet (`raw_df` before cleaning). `none` models
a NaN cell in the two columns the script's `dropna` inspects. -/
structure RawRecord where
  companyName : Option String
  companyType : String
  companyLocation : String
  category : Option String
  reviewCount : RawCount
deriving DecidableEq

/-- One row of the cleaned frame (`raw_df` after section 2 of `app.py`). -/
structure CanonicalRecord where
  companyName : String
  companyType : String
  companyLocation : String
  category : String
  reviewCount : Int
deriving DecidableEq

namespace Dashboard

/-- `pd.to_numeric(errors=coerce).fillna(0).astype(int)` on one cell
(`app.py` line 18). -/
def coerceCount : RawCount → Int
  | .num n => n
  | .text _ => 0
  | .missing => 0

/-- `company_type_mapping` applied by `Series.replace` (`app.py` lines 21-24):
the single synonym key is rewritten, all other values pass through. -/
def mapCompanyType (t : String) : String :=
  if t = "Modern/High-Class Private Hospital" then "High-Class Private Hospital" else t

/-- `category_mapping` (`app.py` lines 27-36). -/
def category_mapping : List (String × String) :=
  [("Slow Services or Lengthy Waiting Times", "Slow Services or Lengthy Waiting Times"),
   ("Unprofessional Staff", "Unprofessional Staff"),
   ("Hostility", "Hostility"),
   ("Poor Compensation", "Poor Compensation"),
   ("Unavailability of Medication/Equipment", "Unavailability of Medication/Equipment"),
   ("Unavailability of Specialist", "Unavailability of Specialists"),
   ("Expensive Costs", "Expensive Costs"),
   ("Others", "Others")]

/-- `Series.replace(category_mapping)` on one cell (`app.py` line 37): a value
that is a key of the dict is rewritten to the dict's value, anything else is
left unchanged (there is no catch-all branch). -/
def mapCategory (c : String) : String :=
  match category_mapping.find? (fun p => p.1 = c) with
  | some p => p.2
  | none => c

/-- The cleaning stage (`app.py` lines 17-37): drop rows with NaN
`Company Name` or `Standardized Category`, coerce `Review Count`, rewrite the
company-type and category synonyms. Row order is preserved. -/
def normalize (rs : List RawRecord) : List CanonicalRecord :=
  rs.filterMap fun r =>
    match r.companyName, r.category with
    | some name, some cat =>
        some { companyName := name
               companyType := mapCompanyType r.companyType
               companyLocation := r.companyLocation
               category := mapCategory cat
               reviewCount := coerceCount r.reviewCount }
    | _, _ => none

/-- The fixed three company types of interest (`app.py` lines 52-56). -/
def company_types : List String :=
  ["Government Hospital", "Small Private Hospital", "High-Class Private Hospital"]

/-- The fixed 8-category list, in dashboard order (`app.py` lines 96-105). -/
def available_categories : List String :=
  ["Slow Services or Lengthy Waiting Times",
   "Unavailability of Medication/Equipment",
   "Unprofessional Staff",
   "Unavailability of Specialists",
   "Poor Compensation",
   "Hostility",
   "Expensive Costs",
   "Others"]

/-- Code-point lexicographic comparison of character lists: the order Python
(and hence pandas `groupby` with `sort=True`) uses to sort string keys. -/
def charListLt : List Char → List Char → Bool
  | [], [] => false
  | [], _ :: _ => true
  | _ :: _, [] => false
  | c :: cs, d :: ds =>
      if c.toNat < d.toNat then true
      else if d.toNat < c.toNat then false
      else charListLt cs ds

/-- Code-point lexicographic comparison of strings. -/
def strLt (x y : String) : Bool := charListLt x.data y.data

/-- Insert a string into a sorted duplicate-free list, keeping it sorted and
duplicate-free. Used to model the sorted distinct group keys of a pandas
`groupby`. -/
def insertSorted (x : String) : List String → List String
  | [] => [x]
  | y :: ys =>
      if x = y then y :: ys
      else if strLt x y then x :: y :: ys
      else y :: insertSorted x ys

/-- The distinct values of `f` over a list, in ascending order: the group keys
produced by `groupby` with its default `sort=True`. -/
def sortedKeys {α : Type} (f : α → String) (l : List α) : List String :=
  l.foldl (fun acc a => insertSorted (f a) acc) []

/-- Number of rows of `recs` falling in the `(category, companyType)` cell:
the `.size()` entry of the `groupby([Standardized Category, Company Type])` in
`app.py` lines 44-49, with `unstack(fill_value=0)` making absent cells 0. -/
def cellCount (recs : List CanonicalRecord) (cat t : String) : Nat :=
  (recs.filter fun r => r.category = cat ∧ r.companyType = t).length

/-- Review-count sum of the `(category, companyType)` cell: the
`[Review Count].sum()` entry of the `groupby` in `app.py` lines 68-73. -/
def cellReviews (recs : List CanonicalRecord) (cat t : String) : Int :=
  ((recs.filter fun r => r.category = cat ∧ r.companyType = t).map
    (fun r => r.reviewCount)).sum

/-- One row of the `company_counts` table. -/
structure CountRow where
  category : String
  government : Nat
  smallPrivate : Nat
  highClass : Nat
  total : Nat
deriving DecidableEq

/-- One row of the `reviews_per_type` table. -/
structure ReviewRow where
  category : String
  government : Int
  smallPrivate : Int
  highClass : Int
  total : Int
deriving DecidableEq

/-- The `company_counts` table (`app.py` lines 44-65): one row per distinct
category in the cleaned frame, in the sorted order `groupby` emits; the three
fixed company-type columns are guaranteed to exist (filled with 0) and
`Total` is the row sum over exactly those three columns. -/
def company_counts (recs : List CanonicalRecord) : List CountRow :=
  (sortedKeys (fun r => r.category) recs).map fun cat =>
    { category := cat
      government := cellCount recs cat "Government Hospital"
      smallPrivate := cellCount recs cat "Small Private Hospital"
      highClass := cellCount recs cat "High-Class Private Hospital"
      total := (company_types.map (cellCount recs cat)).sum }

/-- The `reviews_per_type` table (`app.py` lines 68-82), same shape as
`company_counts` with review-count sums in place of row counts. -/
def reviews_per_type (recs : List CanonicalRecord) : List ReviewRow :=
  (sortedKeys (fun r => r.category) recs).map fun cat =>
    { category := cat
      government := cellReviews recs cat "Government Hospital"
      smallPrivate := cellReviews recs cat "Small Private Hospital"
      highClass := cellReviews recs cat "High-Class Private Hospital"
      total := (company_types.map (cellReviews recs cat)).sum }

/-- `category_by_type` inside `update_category_pie` (`app.py` lines 627-628):
filter the frame to the selected category, group the remaining rows by
`Company Type` and sum `Review Count` — one (type, sum) pair per company type
present among the filtered rows, types in sorted order. -/
def category_by_type (recs : List CanonicalRecord) (cat : String) :
    List (String × Int) :=
  (sortedKeys (fun r => r.companyType) (recs.filter fun r => r.category = cat)).map
    fun t =>
      (t, (((recs.filter fun r => r.category = cat).filter
        fun r => r.companyType = t).map (fun r => r.reviewCount)).sum)

/-- `total_reviews` inside `update_category_pie` (`app.py` line 665): the sum
of the grouped review counts, shown in the donut's center. -/
def total_reviews (recs : List CanonicalRecord) (cat : String) : Int :=
  ((category_by_type recs cat).map (fun p => p.2)).sum

/-- The review-count sum the pie would attribute to one company type under the
selected category (0 when the type has no matching rows). -/
def distributionSum (recs : List CanonicalRecord) (cat t : String) : Int :=
  cellReviews recs cat t

/-- `company_breakdown` (`app.py` lines 89-93):
`drop_duplicates()` over the (category, name, location) projection, keeping
first occurrences in order. The later `groupby` only packages the triples per
category and is inlined into `update_company_breakdown`. -/
def distinctKeep {α : Type} [DecidableEq α] : List α → List α
  | [] => []
  | x :: xs => x :: distinctKeep (xs.filter fun y => y ≠ x)
termination_by l => l.length
decreasing_by
  simp only [List.length_cons]
  exact Nat.lt_succ_of_le (List.length_filter_le _ _)

/-- The (category, name, location) triples after `drop_duplicates`. -/
def company_breakdown (recs : List CanonicalRecord) :
    List (String × String × String) :=
  distinctKeep (recs.map fun r => (r.category, r.companyName, r.companyLocation))

/-- The data shown by `update_company_breakdown` (`app.py` lines 679-698) for a
selected category: the (name, location) rows of that category's group of
`company_breakdown`, and `[]` for the "No companies found" empty state. -/
def update_company_breakdown (recs : List CanonicalRecord) (cat : String) :
    List (String × String) :=
  ((company_breakdown recs).filter fun p => p.1 = cat).map fun p => p.2

/-- The two independent dropdown selections owned by the page (`app.py` lines
299-305 and 483-489). -/
structure Selectors where
  pieCategory : String
  breakdownCategory : String
deriving DecidableEq

/-- The figure data of `update_category_pie` as a function of the whole
selector state: the callback is wired to the `category-dropdown` input only
(`app.py` lines 620-623). -/
def pieView (recs : List CanonicalRecord) (s : Selectors) :
    List (String × Int) × Int :=
  (category_by_type recs s.pieCategory, total_reviews recs s.pieCategory)

/-- The table data of `update_company_breakdown` as a function of the whole
selector state: the callback is wired to the `breakdown-category-dropdown`
input only (`app.py` lines 675-678). -/
def breakdownView (recs : List CanonicalRecord) (s : Selectors) :
    List (String × String) :=
  update_company_breakdown recs s.breakdownCategory

/-- Reinterpret a cleaned row as a raw row, to re-feed it to `normalize`. -/
def reinterpret (r : CanonicalRecord) : RawRecord :=
  { companyName := some r.companyName
    companyType := r.companyType
    companyLocation := r.companyLocation
    category := some r.category
    reviewCount := .num r.reviewCount }

/-- The directory derivation as §4.2 of the specification words it: filter the
canonical records to the category, project to (name, location), deduplicate
keeping first occurrences. Stated separately from `update_company_breakdown`
(which deduplicates before filtering, as the script does) so the two can be
compared. -/
def computeCompanyDirectorySpec (recs : List CanonicalRecord) (cat : String) :
    List (String × String) :=
  distinctKeep ((recs.filter fun r => r.category = cat).map
    fun r => (r.companyName, r.companyLocation))

/-! ### Concrete inputs used by counterexamples and witnesses -/

/-- A raw row whose `Company Name` cell is the empty string (not NaN) and whose
`Review Count` is a negative number. -/
def c1ex : List RawRecord :=
  [{ companyName := some ""
     companyType := "Government Hospital"
     companyLocation := "Lagos"
     category := some "Hostility"
     reviewCount := .num (-1) }]

/-- Raw rows exercising both dropping (missing name) and coercion (text count). -/
def c1w : List RawRecord :=
  [{ companyName := some "General Hospital"
     companyType := "Government Hospital"
     companyLocation := "Lagos"
     category := some "Hostility"
     reviewCount := .text "n/a" },
   { companyName := none
     companyType := "Government Hospital"
     companyLocation := "Lagos"
     category := some "Hostility"
     reviewCount := .num 3 }]

/-- Two cleaned rows covering only two of the eight fixed categories, whose
fixed-list order differs from their alphabetical order. -/
def c2ex : List CanonicalRecord :=
  [{ companyName := "A"
     companyType := "Government Hospital"
     companyLocation := "Lagos"
     category := "Unprofessional Staff"
     reviewCount := 1 },
   { companyName := "B"
     companyType := "Government Hospital"
     companyLocation := "Lagos"
     category := "Poor Compensation"
     reviewCount := 2 }]

/-- A raw row whose category is outside the recognized synonyms. -/
def c3ex : List RawRecord :=
  [{ companyName := some "St. Mary Clinic"
     companyType := "Government Hospital"
     companyLocation := "Abuja"
     category := some "Rude Nurses"
     reviewCount := .num 3 }]

/-- The same company reported twice under the same (category, company type). -/
def c4ex : List CanonicalRecord :=
  [{ companyName := "A"
     companyType := "Government Hospital"
     companyLocation := "Lagos"
     category := "Hostility"
     reviewCount := 4 },
   { companyName := "A"
     companyType := "Government Hospital"
     companyLocation := "Ikeja"
     category := "Hostility"
     reviewCount := 6 }]

/-- A single cleaned row with an in-vocabulary category. -/
def c6w : List CanonicalRecord :=
  [{ companyName := "A"
     companyType := "Government Hospital"
     companyLocation := "Lagos"
     category := "Hostility"
     reviewCount := 5 }]

/-- A cleaned row whose company type is outside the fixed three. -/
def c10ex : List CanonicalRecord :=
  [{ companyName := "A"
     companyType := "Specialist Clinic"
     companyLocation := "Lagos"
     category := "Hostility"
     reviewCount := 5 }]

/-! ### Helper lemmas: the code-point order -/

theorem char_toNat_inj {c d : Char} (h : c.toNat = d.toNat) : c = d := by
  rcases c with ⟨⟨cv, hc⟩, pc⟩
  rcases d with ⟨⟨dv, hd⟩, pd⟩
  simp only [Char.toNat, UInt32.toNat] at h
  simp_all

theorem charListLt_irrefl (as : List Char) : charListLt as as = false := by
  induction as with
  | nil => rfl
  | cons c cs ih => simp [charListLt, ih]

theorem charListLt_trans {as bs cs : List Char}
    (h1 : charListLt as bs = true) (h2 : charListLt bs cs = true) :
    charListLt as cs = true := by
  induction as generalizing bs cs with
  | nil =>
    cases bs with
    | nil => simp [charListLt] at h1
    | cons b bs =>
      cases cs with
      | nil => simp [charListLt] at h2
      | cons c cs => rfl
  | cons a as ih =>
    cases bs with
    | nil => simp [charListLt] at h1
    | cons b bs =>
      cases cs with
      | nil => simp [charListLt] at h2
      | cons c cs =>
        rw [charListLt] at h1 h2 ⊢
        split_ifs at h1 h2 ⊢ <;>
          first
            | rfl
            | omega
            | exact ih h1 h2

theorem charListLt_total {as bs : List Char} (h : as ≠ bs) :
    charListLt as bs = true ∨ charListLt bs as = true := by
  induction as generalizing bs with
  | nil =>
    cases bs with
    | nil => exact absurd rfl h
    | cons b bs => exact Or.inl rfl
  | cons a as ih =>
    cases bs with
    | nil => exact Or.inr rfl
    | cons b bs =>
      rcases Nat.lt_trichotomy a.toNat b.toNat with hab | hab | hab
      · left
        simp [charListLt, hab]
      · have hab' : a = b := char_toNat_inj hab
        subst hab'
        have htl : as ≠ bs := fun h' => h (by rw [h'])
        rcases ih htl with h' | h'
        · left
          simp [charListLt, h']
        · right
          simp [charListLt, h']
      · right
        simp [charListLt, hab, Nat.lt_asymm hab]

theorem strLt_irrefl (x : String) : strLt x x = false :=
  charListLt_irrefl x.data

theorem strLt_trans {x y z : String} (h1 : strLt x y = true)
    (h2 : strLt y z = true) : strLt x z = true :=
  charListLt_trans h1 h2

theorem strLt_total {x y : String} (h : x ≠ y) :
    strLt x y = true ∨ strLt y x = true := by
  apply charListLt_total
  intro hd
  apply h
  cases x
  cases y
  simp_all

theorem sorted_strLt_nodup {l : List String}
    (h : l.Sorted fun a b => strLt a b = true) : l.Nodup := by
  refine h.imp ?_
  intro a b hab
  intro hEq
  subst hEq
  rw [strLt_irrefl] at hab
  cases hab

/-! ### Helper lemmas: sorted group keys -/

theorem mem_insertSorted {x y : String} {l : List String} :
    y ∈ insertSorted x l ↔ y = x ∨ y ∈ l := by
  induction l with
  | nil => simp [insertSorted]
  | cons z zs ih =>
    by_cases h1 : x = z
    · subst h1
      rw [insertSorted, if_pos rfl]
      simp only [List.mem_cons]
      tauto
    · by_cases h2 : strLt x z = true
      · simp only [insertSorted, if_neg h1, if_pos h2, List.mem_cons]
      · simp only [insertSorted, if_neg h1, if_neg h2, List.mem_cons, ih]
        tauto

theorem sorted_insertSorted {x : String} {l : List String}
    (h : l.Sorted fun a b => strLt a b = true) :
    (insertSorted x l).Sorted fun a b => strLt a b = true := by
  induction l with
  | nil => simp [insertSorted]
  | cons z zs ih =>
    rw [List.sorted_cons] at h
    rw [insertSorted]
    by_cases h1 : x = z
    · rw [if_pos h1, List.sorted_cons]
      exact ⟨h.1, h.2⟩
    · by_cases h2 : strLt x z = true
      · rw [if_neg h1, if_pos h2, List.sorted_cons, List.sorted_cons]
        exact ⟨fun b hb => by
          rcases List.mem_cons.mp hb with hb | hb
          · exact hb ▸ h2
          · exact strLt_trans h2 (h.1 b hb), h.1, h.2⟩
      · have hzx : strLt z x = true := by
          rcases strLt_total h1 with h' | h'
          · exact absurd h' h2
          · exact h'
        rw [if_neg h1, if_neg h2, List.sorted_cons]
        refine ⟨fun b hb => ?_, ih h.2⟩
        rcases mem_insertSorted.mp hb with rfl | hb
        · exact hzx
        · exact h.1 b hb

theorem sortedKeys_go_sorted {α : Type} (f : α → String) (l : List α) :
    ∀ acc : List String, (acc.Sorted fun a b => strLt a b = true) →
      ((l.foldl (fun acc a => insertSorted (f a) acc) acc).Sorted
        fun a b => strLt a b = true) := by
  induction l with
  | nil => intro acc hacc; exact hacc
  | cons a l ih =>
    intro acc hacc
    exact ih (insertSorted (f a) acc) (sorted_insertSorted hacc)

theorem sortedKeys_sorted {α : Type} (f : α → String) (l : List α) :
    (sortedKeys f l).Sorted fun a b => strLt a b = true :=
  sortedKeys_go_sorted f l [] (by simp)

theorem sortedKeys_nodup {α : Type} (f : α → String) (l : List α) :
    (sortedKeys f l).Nodup :=
  sorted_strLt_nodup (sortedKeys_sorted f l)

theorem mem_sortedKeys_go {α : Type} (f : α → String) (l : List α) :
    ∀ (acc : List String) (y : String),
      y ∈ l.foldl (fun acc a => insertSorted (f a) acc) acc ↔
        y ∈ acc ∨ ∃ a ∈ l, f a = y := by
  induction l with
  | nil => intro acc y; simp
  | cons a l ih =>
    intro acc y
    rw [List.foldl_cons, ih, mem_insertSorted]
    simp only [List.mem_cons]
    constructor
    · rintro ((rfl | hy) | ⟨b, hb, rfl⟩)
      · exact Or.inr ⟨a, Or.inl rfl, rfl⟩
      · exact Or.inl hy
      · exact Or.inr ⟨b, Or.inr hb, rfl⟩
    · rintro (hy | ⟨b, (rfl | hb), rfl⟩)
      · exact Or.inl (Or.inr hy)
      · exact Or.inl (Or.inl rfl)
      · exact Or.inr ⟨b, hb, rfl⟩

theorem mem_sortedKeys {α : Type} (f : α → String) (l : List α) (y : String) :
    y ∈ sortedKeys f l ↔ ∃ a ∈ l, f a = y := by
  rw [sortedKeys, mem_sortedKeys_go]
  simp

/-! ### Helper lemmas: summing over a partition by group key -/

theorem sum_indicator_not_mem {κ M : Type} [DecidableEq κ] [AddCommMonoid M]
    (ks : List κ) (c : κ) (v : M) (hc : c ∉ ks) :
    (ks.map fun k => if c = k then v else 0).sum = 0 := by
  induction ks with
  | nil => simp
  | cons k ks ih =>
    rw [List.mem_cons, not_or] at hc
    simp only [List.map_cons, List.sum_cons, if_neg hc.1, ih hc.2, zero_add]

theorem sum_indicator {κ M : Type} [DecidableEq κ] [AddCommMonoid M]
    (ks : List κ) (c : κ) (v : M) (hnd : ks.Nodup) :
    (ks.map fun k => if c = k then v else 0).sum = if c ∈ ks then v else 0 := by
  induction ks with
  | nil => simp
  | cons k ks ih =>
    rw [List.nodup_cons] at hnd
    by_cases h : c = k
    · subst h
      simp only [List.map_cons, List.sum_cons, if_pos rfl,
        sum_indicator_not_mem ks c v hnd.1, add_zero, List.mem_cons, true_or]
    · simp only [List.map_cons, List.sum_cons, if_neg h, zero_add, ih hnd.2,
        List.mem_cons]
      have : (c ∈ ks ∨ c = k ∨ c ∈ ks) ↔ (c ∈ ks) := by tauto
      by_cases hm : c ∈ ks <;> simp [hm, h]

theorem sum_partition {α κ M : Type} [DecidableEq κ] [AddCommMonoid M]
    (key : α → κ) (w : α → M) (ks : List κ) (l : List α) (hnd : ks.Nodup) :
    (ks.map fun k => ((l.filter fun a => key a = k).map w).sum).sum
      = ((l.filter fun a => key a ∈ ks).map w).sum := by
  induction l with
  | nil => simp
  | cons a l ih =>
    have hsplit : ∀ k : κ, (((a :: l).filter fun x => key x = k).map w).sum
        = (if key a = k then w a else 0) + ((l.filter fun x => key x = k).map w).sum := by
      intro k
      by_cases h : key a = k <;> simp [List.filter_cons, h]
    calc (ks.map fun k => (((a :: l).filter fun x => key x = k).map w).sum).sum
        = (ks.map fun k => (if key a = k then w a else 0)
            + ((l.filter fun x => key x = k).map w).sum).sum := by
          exact congrArg List.sum (List.map_congr_left fun k _ => hsplit k)
      _ = (ks.map fun k => if key a = k then w a else 0).sum
            + (ks.map fun k => ((l.filter fun x => key x = k).map w).sum).sum :=
          List.sum_map_add
      _ = (if key a ∈ ks then w a else 0)
            + ((l.filter fun x => key x ∈ ks).map w).sum := by
          rw [sum_indicator ks (key a) (w a) hnd, ih]
      _ = (((a :: l).filter fun x => key x ∈ ks).map w).sum := by
          by_cases h : key a ∈ ks <;> simp [List.filter_cons, h]

theorem sum_ones {α : Type} (l : List α) :
    (l.map fun _ => (1 : Nat)).sum = l.length := by
  induction l with
  | nil => rfl
  | cons a l ih => simp [ih, Nat.add_comm]

theorem length_partition {α κ : Type} [DecidableEq κ]
    (key : α → κ) (ks : List κ) (l : List α) (hnd : ks.Nodup) :
    (ks.map fun k => (l.filter fun a => key a = k).length).sum
      = (l.filter fun a => key a ∈ ks).length := by
  have h := sum_partition key (fun _ => (1 : Nat)) ks l hnd
  simp only [sum_ones] at h
  exact h

theorem filter_swap {α : Type} (p q : α → Bool) (l : List α) :
    (l.filter p).filter q = (l.filter q).filter p := by
  rw [List.filter_filter, List.filter_filter]
  exact List.filter_congr fun a _ => Bool.and_comm _ _

/-! ### Helper lemmas: first-occurrence deduplication -/

theorem distinctKeep_subset {α : Type} [DecidableEq α] {l : List α} {x : α}
    (h : x ∈ distinctKeep l) : x ∈ l := by
  induction l using distinctKeep.induct with
  | case1 => simp [distinctKeep] at h
  | case2 y ys ih =>
    rw [distinctKeep, List.mem_cons] at h
    rcases h with rfl | h
    · exact List.mem_cons_self x _
    · exact List.mem_cons_of_mem y (List.mem_of_mem_filter (ih h))

theorem filter_distinctKeep {α : Type} [DecidableEq α] (p : α → Bool) (l : List α) :
    (distinctKeep l).filter p = distinctKeep (l.filter p) := by
  induction l using distinctKeep.induct with
  | case1 => simp [distinctKeep]
  | case2 x xs ih =>
    by_cases hp : p x
    · rw [distinctKeep, List.filter_cons, if_pos hp, ih,
        List.filter_cons, if_pos hp, distinctKeep, filter_swap]
    · rw [distinctKeep, List.filter_cons, if_neg hp, ih,
        List.filter_cons, if_neg hp, filter_swap]
      congr 1
      apply List.filter_eq_self.mpr
      intro a ha
      have hpa : p a := List.of_mem_filter ha
      simp only [decide_eq_true_eq]
      intro hax
      rw [hax] at hpa
      exact hp hpa

theorem map_distinctKeep {α β : Type} [DecidableEq α] [DecidableEq β]
    (f : α → β) (l : List α)
    (hinj : ∀ x ∈ l, ∀ y ∈ l, f x = f y → x = y) :
    (distinctKeep l).map f = distinctKeep (l.map f) := by
  induction l using distinctKeep.induct with
  | case1 => simp [distinctKeep]
  | case2 x xs ih =>
    rw [distinctKeep, List.map_cons, List.map_cons, distinctKeep]
    congr 1
    have hsub : ∀ y ∈ xs.filter (fun y => y ≠ x), y ∈ x :: xs := fun y hy =>
      List.mem_cons_of_mem x (List.mem_of_mem_filter hy)
    rw [ih (fun a ha b hb hab => hinj a (hsub a ha) b (hsub b hb) hab)]
    congr 1
    rw [List.filter_map]
    apply congrArg
    apply List.filter_congr
    intro a ha
    simp only [Function.comp_apply, decide_eq_true_eq, ne_eq, decide_not]
    by_cases hax : a = x
    · simp [hax]
    · have : ¬ f a = f x := fun hf =>
        hax (hinj a (List.mem_cons_of_mem x ha) x (List.mem_cons_self x xs) hf)
      simp [hax, this]

/-! ### Helper lemmas: the normalizer -/

theorem mapCompanyType_idem (t : String) :
    mapCompanyType (mapCompanyType t) = mapCompanyType t := by
  by_cases h : t = "Modern/High-Class Private Hospital" <;>
    simp [mapCompanyType, h]

theorem category_mapping_values_fixed :
    ∀ p ∈ category_mapping, mapCategory p.2 = p.2 := by decide

theorem category_mapping_values_available :
    ∀ p ∈ category_mapping, p.2 ∈ available_categories := by decide

theorem mapCategory_eq (c : String) :
    mapCategory c = c ∨ ∃ p ∈ category_mapping, mapCategory c = p.2 := by
  rw [mapCategory]
  cases h : category_mapping.find? (fun p => p.1 = c) with
  | none => exact Or.inl rfl
  | some p => exact Or.inr ⟨p, List.mem_of_find?_eq_some h, rfl⟩

theorem mapCategory_idem (c : String) :
    mapCategory (mapCategory c) = mapCategory c := by
  rcases mapCategory_eq c with h | ⟨p, hp, h⟩
  · rw [h]
    exact h
  · rw [h]
    exact category_mapping_values_fixed p hp

theorem mem_normalize {rs : List RawRecord} {r : CanonicalRecord}
    (h : r ∈ normalize rs) :
    ∃ raw ∈ rs, ∃ name cat, raw.companyName = some name ∧ raw.category = some cat ∧
      r = { companyName := name
            companyType := mapCompanyType raw.companyType
            companyLocation := raw.companyLocation
            category := mapCategory cat
            reviewCount := coerceCount raw.reviewCount } := by
  rw [normalize, List.mem_filterMap] at h
  obtain ⟨raw, hmem, hraw⟩ := h
  cases hn : raw.companyName with
  | none => rw [hn] at hraw; simp at hraw
  | some name =>
    cases hc : raw.category with
    | none => rw [hn, hc] at hraw; simp at hraw
    | some cat =>
      rw [hn, hc] at hraw
      simp only [Option.some.injEq] at hraw
      exact ⟨raw, hmem, name, cat, hn, hc, hraw.symm⟩

theorem normalize_map_reinterpret (l : List CanonicalRecord) :
    normalize (l.map reinterpret) = l.map fun r =>
      { companyName := r.companyName
        companyType := mapCompanyType r.companyType
        companyLocation := r.companyLocation
        category := mapCategory r.category
        reviewCount := r.reviewCount } := by
  induction l with
  | nil => rfl
  | cons r l ih =>
    rw [List.map_cons, List.map_cons, normalize, List.filterMap_cons]
    rw [normalize] at ih
    rw [ih]
    rfl

theorem total_reviews_eq (recs : List CanonicalRecord) (cat : String) :
    total_reviews recs cat
      = ((recs.filter fun r => r.category = cat).map fun r => r.reviewCount).sum := by
  rw [total_reviews, category_by_type, List.map_map]
  have hcomp : ((fun p : String × Int => p.2) ∘ fun t =>
      (t, (((recs.filter fun r => r.category = cat).filter
        fun r => r.companyType = t).map (fun r => r.reviewCount)).sum))
      = fun t => (((recs.filter fun r => r.category = cat).filter
        fun r => r.companyType = t).map (fun r => r.reviewCount)).sum := rfl
  rw [hcomp, sum_partition (fun r : CanonicalRecord => r.companyType)
    (fun r : CanonicalRecord => r.reviewCount)
    (sortedKeys (fun r : CanonicalRecord => r.companyType)
      (recs.filter fun r => r.category = cat))
    (recs.filter fun r => r.category = cat) (sortedKeys_nodup _ _)]
  rw [List.filter_eq_self.mpr]
  intro r hr
  simp only [decide_eq_true_eq]
  exact (mem_sortedKeys _ _ _).mpr ⟨r, hr, rfl⟩

/-! ### The claims -/

/-- C1: the claim that `normalize` output never has an empty `companyName` or
`category` and always has a non-negative `reviewCount` is false on the code:
a row whose `Company Name` cell holds the empty string is not NaN, so
`dropna` keeps it, and a negative numeric `Review Count` passes
`pd.to_numeric` unchanged. -/
theorem C1_counterexample :
    ¬ ∀ r ∈ normalize c1ex,
        r.companyName ≠ "" ∧ r.category ≠ "" ∧ 0 ≤ r.reviewCount := by
  decide

/-- C1 (amended): `normalize` drops exactly the rows whose `Company Name` or
`Standardized Category` cell is missing (NaN) — empty strings are kept — and
every output record's `reviewCount` is the integer coercion of its source
row's raw count, where non-numeric or missing counts become 0 and numeric
counts, including negative ones, pass through unchanged. -/
theorem C1_amended (rs : List RawRecord) :
    (normalize rs).length
        = (rs.filter fun raw => raw.companyName.isSome ∧ raw.category.isSome).length ∧
    (∀ r ∈ normalize rs, ∃ raw ∈ rs, raw.companyName = some r.companyName ∧
        raw.category.isSome ∧ r.reviewCount = coerceCount raw.reviewCount) ∧
    (∀ s, coerceCount (.text s) = 0) ∧ coerceCount .missing = 0 ∧
    (∀ n : Int, coerceCount (.num n) = n) := by
  refine ⟨?_, ?_, fun s => rfl, rfl, fun n => rfl⟩
  · induction rs with
    | nil => rfl
    | cons raw rs ih =>
      rw [normalize, List.filterMap_cons] at *
      rw [List.filter_cons]
      cases hn : raw.companyName <;> cases hc : raw.category <;>
        simp [hn, hc, ih]
  · intro r hr
    obtain ⟨raw, hmem, name, cat, hn, hc, rfl⟩ := mem_normalize hr
    exact ⟨raw, hmem, hn, by simp [hc], rfl⟩

/-- Closed instance of the amended C1 statement at a concrete input. -/
theorem C1_amended_witness :
    ∃ raw ∈ c1w, raw.companyName = some "General Hospital" ∧
      raw.category.isSome ∧ (0 : Int) = coerceCount raw.reviewCount :=
  (C1_amended c1w).2.1
    { companyName := "General Hospital"
      companyType := "Government Hospital"
      companyLocation := "Lagos"
      category := "Hostility"
      reviewCount := 0 } (by decide)

/-- C2: the claim that the two summary tables always carry one row per each of
the 8 fixed categories, in the fixed dashboard order, is false on the code:
`groupby` emits one row per category value present in the data, sorted
alphabetically, so absent categories get no row and the order is not the
fixed-list order. -/
theorem C2_counterexample :
    ¬ ((company_counts c2ex).map (fun row => row.category) = available_categories) ∧
    ¬ ((reviews_per_type c2ex).map (fun row => row.category) = available_categories) ∧
    (company_counts c2ex).map (fun row => row.category)
      = ["Poor Compensation", "Unprofessional Staff"] := by
  decide

/-- C2 (amended): `company_counts` and `reviews_per_type` carry exactly one
row per distinct category value present in the cleaned frame — categories
with zero rows get no row — and the rows appear in ascending lexicographic
order of the category name. -/
theorem C2_amended (recs : List CanonicalRecord) :
    (company_counts recs).map (fun row => row.category)
        = sortedKeys (fun r => r.category) recs ∧
    (reviews_per_type recs).map (fun row => row.category)
        = sortedKeys (fun r => r.category) recs ∧
    ((sortedKeys (fun r => r.category) recs).Sorted fun a b => strLt a b = true) ∧
    (sortedKeys (fun r => r.category) recs).Nodup ∧
    (∀ c : String, c ∈ sortedKeys (fun r => r.category) recs ↔
        ∃ r ∈ recs, r.category = c) := by
  refine ⟨?_, ?_, sortedKeys_sorted _ _, sortedKeys_nodup _ _,
    fun c => mem_sortedKeys _ _ c⟩
  · rw [company_counts, List.map_map]
    exact List.map_id _
  · rw [reviews_per_type, List.map_map]
    exact List.map_id _

/-- Closed instance of the amended C2 statement at a concrete input. -/
theorem C2_amended_witness :
    (company_counts c2ex).map (fun row => row.category)
        = sortedKeys (fun r => r.category) c2ex ∧
    (reviews_per_type c2ex).map (fun row => row.category)
        = sortedKeys (fun r => r.category) c2ex ∧
    ((sortedKeys (fun r => r.category) c2ex).Sorted fun a b => strLt a b = true) ∧
    (sortedKeys (fun r => r.category) c2ex).Nodup ∧
    (∀ c : String, c ∈ sortedKeys (fun r => r.category) c2ex ↔
        ∃ r ∈ c2ex, r.category = c) :=
  C2_amended c2ex

/-- C3: the claim that every cleaned record's category lands in the fixed
8-category vocabulary is false on the code: `Series.replace` only rewrites
values that are keys of `category_mapping`; any other value passes through
unchanged, and there is no catch-all `Others` branch. -/
theorem C3_counterexample :
    ¬ ∀ r ∈ normalize c3ex, r.category ∈ available_categories := by
  decide

/-- C3 (amended): `category_mapping` maps each recognized synonym onto the
fixed vocabulary, so a cleaned record's category is either a member of the
fixed 8-category vocabulary or the raw category value passed through
unchanged. -/
theorem C3_amended (rs : List RawRecord) (r : CanonicalRecord)
    (hr : r ∈ normalize rs) :
    r.category ∈ available_categories ∨ ∃ raw ∈ rs, raw.category = some r.category := by
  obtain ⟨raw, hmem, name, cat, hn, hc, rfl⟩ := mem_normalize hr
  rcases mapCategory_eq cat with h | ⟨p, hp, h⟩
  · right
    refine ⟨raw, hmem, ?_⟩
    show raw.category = some (mapCategory cat)
    rw [hc, h]
  · left
    show mapCategory cat ∈ available_categories
    rw [h]
    exact category_mapping_values_available p hp

/-- Closed instance of the amended C3 statement at a concrete input. -/
theorem C3_amended_witness :
    ("Rude Nurses" : String) ∈ available_categories ∨
      ∃ raw ∈ c3ex, raw.category = some "Rude Nurses" :=
  C3_amended c3ex
    { companyName := "St. Mary Clinic"
      companyType := "Government Hospital"
      companyLocation := "Abuja"
      category := "Rude Nurses"
      reviewCount := 3 } (by decide)

/-- C4 (code bug): the "Company Count by Service Category" table cell is
computed by `groupby(...).size()`, which counts rows, not distinct companies:
with company "A" reported twice under (Hostility, Government Hospital) the
cell and the row total show 2 although only one distinct company appears
there. -/
theorem C4_cell_counts_rows :
    cellCount c4ex "Hostility" "Government Hospital" = 2 ∧
    ((c4ex.filter fun r =>
        r.category = "Hostility" ∧ r.companyType = "Government Hospital").map
      (fun r => r.companyName)).dedup.length = 1 ∧
    (company_counts c4ex).map (fun row => (row.category, row.government, row.total))
      = [("Hostility", 2, 2)] := by
  decide

/-- C5: in `company_counts` every row's `Total` is the sum of its three fixed
company-type cells, and the rows' totals sum to the number of cleaned records
whose company type is one of the three fixed types. -/
theorem C5_row_and_grand_totals (recs : List CanonicalRecord) :
    (∀ row ∈ company_counts recs,
        row.total = row.government + row.smallPrivate + row.highClass) ∧
    ((company_counts recs).map (fun row => row.total)).sum
      = (recs.filter fun r => r.companyType ∈ company_types).length := by
  have hcell : ∀ cat t, cellCount recs cat t
      = ((recs.filter fun r => r.category = cat).filter
          fun r => r.companyType = t).length := by
    intro cat t
    rw [cellCount, List.filter_filter]
    congr 1
    apply List.filter_congr
    intro r _
    by_cases h1 : r.category = cat <;> by_cases h2 : r.companyType = t <;>
      simp [h1, h2]
  constructor
  · intro row hrow
    rw [company_counts, List.mem_map] at hrow
    obtain ⟨cat, _, rfl⟩ := hrow
    show (company_types.map (cellCount recs cat)).sum
        = cellCount recs cat "Government Hospital"
          + cellCount recs cat "Small Private Hospital"
          + cellCount recs cat "High-Class Private Hospital"
    simp [company_types, Nat.add_assoc]
  · have hinner : ∀ cat, (company_types.map (cellCount recs cat)).sum
        = ((recs.filter fun r => r.companyType ∈ company_types).filter
            fun r => r.category = cat).length := by
      intro cat
      calc (company_types.map (cellCount recs cat)).sum
          = (company_types.map fun t =>
              ((recs.filter fun r => r.category = cat).filter
                fun r => r.companyType = t).length).sum := by
            exact congrArg List.sum (List.map_congr_left fun t _ => hcell cat t)
        _ = ((recs.filter fun r => r.category = cat).filter
              fun r => r.companyType ∈ company_types).length :=
            length_partition (fun r : CanonicalRecord => r.companyType)
              company_types (recs.filter fun r => r.category = cat) (by decide)
        _ = ((recs.filter fun r => r.companyType ∈ company_types).filter
              fun r => r.category = cat).length := by rw [filter_swap]
    calc ((company_counts recs).map (fun row => row.total)).sum
        = ((sortedKeys (fun r => r.category) recs).map fun cat =>
            (company_types.map (cellCount recs cat)).sum).sum := by
          rw [company_counts, List.map_map]
          rfl
      _ = ((sortedKeys (fun r => r.category) recs).map fun cat =>
            ((recs.filter fun r => r.companyType ∈ company_types).filter
              fun r => r.category = cat).length).sum := by
          exact congrArg List.sum (List.map_congr_left fun cat _ => hinner cat)
      _ = ((recs.filter fun r => r.companyType ∈ company_types).filter
            fun r => r.category ∈ sortedKeys (fun r => r.category) recs).length :=
          length_partition (fun r : CanonicalRecord => r.category)
            (sortedKeys (fun r => r.category) recs)
            (recs.filter fun r => r.companyType ∈ company_types)
            (sortedKeys_nodup _ _)
      _ = (recs.filter fun r => r.companyType ∈ company_types).length := by
          apply congrArg List.length
          apply List.filter_eq_self.mpr
          intro r hr
          simp only [decide_eq_true_eq]
          exact (mem_sortedKeys _ _ _).mpr ⟨r, List.mem_of_mem_filter hr, rfl⟩

/-- Closed instance of C5 at a concrete input, with the row property applied
to the one row of the table. -/
theorem C5_witness :
    ((company_counts c4ex).map (fun row => row.total)).sum
        = (c4ex.filter fun r => r.companyType ∈ company_types).length ∧
    ({ category := "Hostility", government := 2, smallPrivate := 0,
       highClass := 0, total := 2 } : CountRow).total = 2 + 0 + 0 :=
  ⟨(C5_row_and_grand_totals c4ex).2,
   (C5_row_and_grand_totals c4ex).1 _ (by decide)⟩

/-- C6: the claim that every category argument outside the fixed 8-category
vocabulary yields all-zero sums and an empty directory is false on the code:
unrecognized raw categories pass through normalization (C3), so the cleaned
set the script itself builds from `c3ex` contains the out-of-vocabulary
category "Rude Nurses", and selecting exactly that value returns a nonzero
distribution and a nonempty directory. -/
theorem C6_counterexample :
    ("Rude Nurses" : String) ∉ available_categories ∧
    category_by_type (normalize c3ex) "Rude Nurses" = [("Government Hospital", 3)] ∧
    total_reviews (normalize c3ex) "Rude Nurses" = 3 ∧
    update_company_breakdown (normalize c3ex) "Rude Nurses"
      = [("St. Mary Clinic", "Abuja")] := by
  have h1 : normalize c3ex =
      [{ companyName := "St. Mary Clinic"
         companyType := "Government Hospital"
         companyLocation := "Abuja"
         category := "Rude Nurses"
         reviewCount := 3 }] := by decide
  refine ⟨by decide, by rw [h1]; decide, by rw [h1]; decide, ?_⟩
  rw [h1, update_company_breakdown, company_breakdown]
  simp [distinctKeep]

/-- C6 (amended): a category argument that matches no cleaned record — which
an out-of-vocabulary argument need not be, since unrecognized raw categories
pass through normalization — makes `update_category_pie` group an empty
frame (empty grouping, zero per-type sums, zero center total) and makes
`update_company_breakdown` return its empty state; neither callback signals
an error. -/
theorem C6_amended (recs : List CanonicalRecord) (cat : String)
    (hcat : ∀ r ∈ recs, r.category ≠ cat) :
    category_by_type recs cat = [] ∧ total_reviews recs cat = 0 ∧
    (∀ t, distributionSum recs cat t = 0) ∧
    update_company_breakdown recs cat = [] := by
  have hfilter : (recs.filter fun r => r.category = cat) = [] := by
    apply List.filter_eq_nil_iff.mpr
    intro r hr
    simp only [decide_eq_true_eq]
    exact hcat r hr
  refine ⟨?_, ?_, ?_, ?_⟩
  · rw [category_by_type, hfilter]
    rfl
  · rw [total_reviews, category_by_type, hfilter]
    rfl
  · intro t
    rw [distributionSum, cellReviews]
    have h : (recs.filter fun r => r.category = cat ∧ r.companyType = t) = [] := by
      apply List.filter_eq_nil_iff.mpr
      intro r hr
      simp only [decide_eq_true_eq, not_and]
      intro h _
      exact hcat r hr h
    rw [h]
    rfl
  · rw [update_company_breakdown]
    have h : ((company_breakdown recs).filter fun p => p.1 = cat) = [] := by
      apply List.filter_eq_nil_iff.mpr
      intro p hp
      rw [company_breakdown] at hp
      have hmem : p ∈ recs.map fun r => (r.category, r.companyName, r.companyLocation) :=
        distinctKeep_subset hp
      rw [List.mem_map] at hmem
      obtain ⟨r, hr, rfl⟩ := hmem
      simp only [decide_eq_true_eq]
      exact hcat r hr
    rw [h]
    rfl

/-- Closed instance of the amended C6 statement at a concrete input and a
category argument matching no record. -/
theorem C6_amended_witness :
    category_by_type c6w "Billing Problems" = [] ∧
    total_reviews c6w "Billing Problems" = 0 ∧
    (∀ t, distributionSum c6w "Billing Problems" t = 0) ∧
    update_company_breakdown c6w "Billing Problems" = [] :=
  C6_amended c6w "Billing Problems" (by decide)

/-- C7: the company directory the dashboard renders (deduplicate the
(category, name, location) triples of the whole frame first, then select the
chosen category's group) equals the specification's wording (filter to the
category first, then deduplicate the (name, location) pairs keeping first
occurrences in canonical order). -/
theorem C7_directory_first_seen (recs : List CanonicalRecord) (cat : String) :
    update_company_breakdown recs cat = computeCompanyDirectorySpec recs cat := by
  rw [update_company_breakdown, company_breakdown, computeCompanyDirectorySpec]
  rw [filter_distinctKeep, List.filter_map]
  have hpred : (recs.filter
      ((fun p : String × String × String => decide (p.1 = cat)) ∘
        fun r => (r.category, r.companyName, r.companyLocation)))
      = recs.filter fun r => r.category = cat :=
    List.filter_congr fun r _ => rfl
  rw [hpred]
  have hfst : ∀ x ∈ (recs.filter fun r => r.category = cat).map
      (fun r => (r.category, r.companyName, r.companyLocation)), x.1 = cat := by
    intro x hx
    rw [List.mem_map] at hx
    obtain ⟨r, hr, rfl⟩ := hx
    have hdec := List.of_mem_filter hr
    exact of_decide_eq_true hdec
  have hinj : ∀ x ∈ (recs.filter fun r => r.category = cat).map
        (fun r => (r.category, r.companyName, r.companyLocation)),
      ∀ y ∈ (recs.filter fun r => r.category = cat).map
        (fun r => (r.category, r.companyName, r.companyLocation)),
      (fun p : String × String × String => p.2) x
        = (fun p : String × String × String => p.2) y → x = y := by
    intro x hx y hy hxy
    have h1 : x.1 = y.1 := by rw [hfst x hx, hfst y hy]
    exact Prod.ext h1 hxy
  rw [map_distinctKeep (fun p : String × String × String => p.2) _ hinj,
    List.map_map]
  rfl

/-- C8: re-feeding the cleaned frame through the same cleaning pipeline
changes nothing: no cell is NaN any more, `to_numeric` fixes integers, and
both `replace` tables are idempotent (no value they produce is again a key,
other than identically-mapped keys). -/
theorem C8_normalize_idempotent (rs : List RawRecord) :
    normalize ((normalize rs).map reinterpret) = normalize rs := by
  rw [normalize_map_reinterpret]
  have h : ∀ r ∈ normalize rs,
      ({ companyName := r.companyName
         companyType := mapCompanyType r.companyType
         companyLocation := r.companyLocation
         category := mapCategory r.category
         reviewCount := r.reviewCount } : CanonicalRecord) = r := by
    intro r hr
    obtain ⟨raw, _, name, cat, _, _, rfl⟩ := mem_normalize hr
    simp [mapCompanyType_idem, mapCategory_idem]
  rw [List.map_congr_left h, List.map_id']

/-- C9: each of the two category-scoped callbacks reads only its own dropdown:
as functions of the whole selector state, the pie data is unchanged by any
change of the directory selector, and the directory data is unchanged by any
change of the pie selector. -/
theorem C9_view_independence (recs : List CanonicalRecord) (s s' : Selectors) :
    (s.pieCategory = s'.pieCategory → pieView recs s = pieView recs s') ∧
    (s.breakdownCategory = s'.breakdownCategory →
      breakdownView recs s = breakdownView recs s') := by
  constructor <;> intro h <;> simp [pieView, breakdownView, h]

/-- Closed instance of C9: flipping one selector while the other is held
fixed leaves the other view's data unchanged. -/
theorem C9_witness :
    pieView c6w { pieCategory := "Hostility", breakdownCategory := "Others" }
      = pieView c6w { pieCategory := "Hostility", breakdownCategory := "Expensive Costs" } ∧
    breakdownView c6w { pieCategory := "Hostility", breakdownCategory := "Others" }
      = breakdownView c6w { pieCategory := "Poor Compensation", breakdownCategory := "Others" } :=
  ⟨(C9_view_independence c6w _ _).1 rfl, (C9_view_independence c6w _ _).2 rfl⟩

/-- C10: the donut's center total is the review-count sum over every cleaned
record of the selected category, across all company types — so with a record
whose company type is outside the fixed three it strictly exceeds the
`reviews_per_type` row `Total` for the same category, which sums only the
three fixed columns. -/
theorem C10_pie_total_all_types :
    (∀ (recs : List CanonicalRecord) (cat : String), total_reviews recs cat
        = ((recs.filter fun r => r.category = cat).map fun r => r.reviewCount).sum) ∧
    total_reviews c10ex "Hostility" = 5 ∧
    (reviews_per_type c10ex).map (fun row => (row.category, row.total))
      = [("Hostility", 0)] := by
  refine ⟨total_reviews_eq, by decide, by decide⟩

end Dashboard
